import Mathlib

/-!
Shallow embedding of `src/src/lib.rs` (crate `cbor_debug`), a CBOR decoder.

Conventions of the embedding:
* A Rust byte (`u8`) is a `Nat`; every byte produced by a real buffer is `< 256`,
  and the bit operations `&&&`/`>>>` are the Rust `&`/`>>` on such values.
* A Rust panic (out-of-bounds indexing or slicing, `Option::unwrap` on `None`,
  `String::from_utf8(..).unwrap()` on invalid UTF-8) is modelled as the whole
  computation returning `none`.  The source has no error type: `Option.none`
  in the model always means a panic, never an error value.
* Recursion through major type 4 (arrays) is not structural in the input, so
  `decode_at` carries a fuel parameter; fuel `bytes.length + 1` is always
  sufficient because every nesting level consumes at least one header byte.
* `get_f16` performs `f32` arithmetic in Rust.  Every operation it performs is
  exact in binary32 (the factors are a sign, a power of two with exponent in
  [-15, 16], and `1 + m/1024` with `m < 1024`, an 11-bit significand), so the
  model computes the identical value in `ℚ`.
* `f32::from_be_bytes` / `f64::from_be_bytes` reinterpret the bytes as an
  IEEE-754 bit pattern; the model stores the big-endian integer bit pattern
  itself (a bijective image).  No claim depends on binary32/64 arithmetic.
* Rust's `String` is modelled by its UTF-8 byte sequence; `String::from_utf8`
  keeps the bytes unchanged and only validates them, so `Str` carries the raw
  validated bytes.
-/

/-- The `MajorType` enum of the source: the decoded value sum type.
`Map` carries its `HashMap<String, MajorType>` as an association list
(string keys as UTF-8 byte lists); the source only ever constructs the
empty map. -/
inductive MajorType where
  | U (v : Nat)
  | N (v : Int)
  | BStr (bs : List Nat)
  | Str (utf : List Nat)
  | Arr (a : List MajorType)
  | Map (m : List (List Nat × MajorType))
  | Tag
  | False
  | True
  | Null
  | Undefined
  | F16 (v : ℚ)
  | F32 (bits : Nat)
  | F64 (bits : Nat)
  | Invalid

/-- Big-endian interpretation of a byte list, as done by `u64::from_be_bytes`
on the padded array. -/
def u64FromBe (l : List Nat) : Nat :=
  l.foldl (fun acc b => acc * 256 + b) 0

/-- `to_b8` of the source: left-pad a byte slice (of length at most 8) with
zeroes to 8 bytes. -/
def to_b8 (l : List Nat) : List Nat :=
  List.replicate (8 - l.length) 0 ++ l

/-- `to_b4` of the source: left-pad a byte slice (of length at most 4) with
zeroes to 4 bytes. -/
def to_b4 (l : List Nat) : List Nat :=
  List.replicate (4 - l.length) 0 ++ l

/-- `get_int` of the source.  Reads the 5-bit additional-information field of
the byte at `i`.  Result `none` models a Rust panic (initial read or the
slice `bytes[i+1 ..= i+nbytes]` out of bounds); `some (ov, i')` returns the
Rust `Option<u64>` value `ov` together with the updated index `i'` (the index
is not advanced on the `AI >= 28` path, where the source returns `None`). -/
def get_int (bytes : List Nat) (i : Nat) : Option (Option Nat × Nat) :=
  match bytes[i]? with
  | none => none
  | some b =>
    let additional := b &&& 31
    if additional < 24 then
      some (some additional, i + 1)
    else if additional < 28 then
      let nbytes := 1 <<< (additional - 24)
      if i + nbytes + 1 ≤ bytes.length then
        some (some (u64FromBe (to_b8 ((bytes.drop (i + 1)).take nbytes))), i + nbytes + 1)
      else
        none
    else
      some (none, i)

/-- `get_f16` of the source.  Reads `bytes[idx+1]` and `bytes[idx+2]` and
applies the normal-form half-float formula
`2^(exponent-15) * (1 + fraction/1024) * sign` unconditionally (the source has
no subnormal / infinity / NaN special cases).  The `f32` arithmetic of the
source is exact for every input, so the value is computed in `ℚ`.  Returns the
value together with the index advanced by 2 (the caller adds the final 1). -/
def get_f16 (bytes : List Nat) (idx : Nat) : Option (ℚ × Nat) :=
  match bytes[idx + 1]?, bytes[idx + 2]? with
  | some b1, some b2 =>
    let sign : ℚ := if b1 &&& 128 = 0 then 1 else -1
    let exponent : ℤ := (((b1 &&& 124) >>> 2 : Nat) : ℤ) - 15
    let fraction : ℚ := (((b1 &&& 3) <<< 8) + b2 : Nat)
    some ((2 : ℚ) ^ exponent * (1 + fraction / 1024) * sign, idx + 2)
  | _, _ => none

/-- `get_f32` of the source: advances the index by 4 and reinterprets
`bytes[idx+1 ..= idx+4]` as a big-endian bit pattern (stored as the integer
value, see the module comment). -/
def get_f32 (bytes : List Nat) (idx : Nat) : Option (Nat × Nat) :=
  if idx + 4 + 1 ≤ bytes.length then
    some (u64FromBe (to_b4 ((bytes.drop (idx + 1)).take 4)), idx + 4)
  else
    none

/-- `get_f64` of the source: advances the index by 8 and reinterprets
`bytes[idx+1 ..= idx+8]` as a big-endian bit pattern. -/
def get_f64 (bytes : List Nat) (idx : Nat) : Option (Nat × Nat) :=
  if idx + 8 + 1 ≤ bytes.length then
    some (u64FromBe (to_b8 ((bytes.drop (idx + 1)).take 8)), idx + 8)
  else
    none

/-- UTF-8 validity of a byte sequence, exactly as checked by Rust's
`String::from_utf8`: RFC 3629 UTF-8, rejecting overlong forms, surrogates
(U+D800–U+DFFF) and code points above U+10FFFF. -/
def validUtf8 : List Nat → Bool
  | [] => Bool.true
  | b :: rest =>
    if b < 128 then
      validUtf8 rest
    else if b < 194 then
      Bool.false
    else if b < 224 then
      match rest with
      | c1 :: r => decide (128 ≤ c1) && decide (c1 < 192) && validUtf8 r
      | [] => Bool.false
    else if b < 240 then
      match rest with
      | c1 :: c2 :: r =>
        (if b = 224 then decide (160 ≤ c1) && decide (c1 < 192)
         else if b = 237 then decide (128 ≤ c1) && decide (c1 < 160)
         else decide (128 ≤ c1) && decide (c1 < 192)) &&
        (decide (128 ≤ c2) && decide (c2 < 192)) && validUtf8 r
      | _ => Bool.false
    else if b < 245 then
      match rest with
      | c1 :: c2 :: c3 :: r =>
        (if b = 240 then decide (144 ≤ c1) && decide (c1 < 192)
         else if b = 244 then decide (128 ≤ c1) && decide (c1 < 144)
         else decide (128 ≤ c1) && decide (c1 < 192)) &&
        (decide (128 ≤ c2) && decide (c2 < 192)) &&
        (decide (128 ≤ c3) && decide (c3 < 192)) && validUtf8 r
      | _ => Bool.false
    else
      Bool.false

/-- The `for _ in 0..len { array.push(decode_at(bytes, idx)) }` loop of the
source's major-type-4 branch, abstracted over the element decoder `f`
(instantiated with `decode_at` at one fuel less).  `none` propagates a
panic. -/
def decodeSeq (f : Nat → Option (MajorType × Nat)) : Nat → Nat → Option (List MajorType × Nat)
  | 0, idx => some ([], idx)
  | n + 1, idx =>
    match f idx with
    | none => none
    | some (v, i) =>
      match decodeSeq f n i with
      | none => none
      | some (vs, i') => some (v :: vs, i')

/-- `decode_at` of the source, with a fuel parameter for the recursion through
major type 4.  Returns the decoded `MajorType` together with the updated
index; `none` models a Rust panic (or exhausted fuel, which never happens for
fuel larger than the buffer length). -/
def decode_at : Nat → List Nat → Nat → Option (MajorType × Nat)
  | 0, _, _ => none
  | fuel + 1, bytes, idx =>
    match bytes[idx]? with
    | none => none
    | some b =>
      if (b &&& 224) >>> 5 = 0 then
        match get_int bytes idx with
        | none => none
        | some (some v, i) => some (.U v, i)
        | some (none, i) => some (.Invalid, i)
      else if (b &&& 224) >>> 5 = 1 then
        match get_int bytes idx with
        | none => none
        | some (some v, i) => some (.N (-1 - (v : Int)), i)
        | some (none, i) => some (.Invalid, i)
      else if (b &&& 224) >>> 5 = 2 then
        match get_int bytes idx with
        | none => none
        | some (none, _) => none
        | some (some len, i) =>
          if i + len ≤ bytes.length then
            some (.BStr ((bytes.drop i).take len), i + len)
          else
            none
      else if (b &&& 224) >>> 5 = 3 then
        match get_int bytes idx with
        | none => none
        | some (none, _) => none
        | some (some len, i) =>
          if i + len ≤ bytes.length then
            if validUtf8 ((bytes.drop i).take len) then
              some (.Str ((bytes.drop i).take len), i + len)
            else none
          else
            none
      else if (b &&& 224) >>> 5 = 4 then
        match get_int bytes idx with
        | none => none
        | some (none, _) => none
        | some (some len, i) =>
          match decodeSeq (fun j => decode_at fuel bytes j) len i with
          | none => none
          | some (vs, i') => some (.Arr vs, i')
      else if (b &&& 224) >>> 5 = 5 then some (.Map [], idx)
      else if (b &&& 224) >>> 5 = 6 then some (.Tag, idx)
      else if (b &&& 224) >>> 5 = 7 then
        if b &&& 31 = 20 then some (.False, idx + 1)
        else if b &&& 31 = 21 then some (.True, idx + 1)
        else if b &&& 31 = 22 then some (.Null, idx + 1)
        else if b &&& 31 = 23 then some (.Undefined, idx + 1)
        else if b &&& 31 = 25 then
          match get_f16 bytes idx with
          | none => none
          | some (v, i) => some (.F16 v, i + 1)
        else if b &&& 31 = 26 then
          match get_f32 bytes idx with
          | none => none
          | some (v, i) => some (.F32 v, i + 1)
        else if b &&& 31 = 27 then
          match get_f64 bytes idx with
          | none => none
          | some (v, i) => some (.F64 v, i + 1)
        else some (.Invalid, idx + 1)
      else some (.Invalid, idx)

/-- The `while idx < bytes.len()` loop of the source's `decode`, with a fuel
bound on the number of iterations.  Note the source does `idx += 1` after each
`decode_at` call even though `decode_at` already leaves the index one past the
item.  Returns the accumulated output together with the final index. -/
def decodeLoop (bytes : List Nat) (itemFuel : Nat) : Nat → Nat → Option (List MajorType × Nat)
  | 0, idx => if idx < bytes.length then none else some ([], idx)
  | loopFuel + 1, idx =>
    if idx < bytes.length then
      match decode_at itemFuel bytes idx with
      | none => none
      | some (v, i) =>
        match decodeLoop bytes itemFuel loopFuel (i + 1) with
        | none => none
        | some (vs, fi) => some (v :: vs, fi)
    else
      some ([], idx)

/-- `decode` of the source: run the top-level loop from index 0.  The source
returns the `Debug` rendering of the `Vec<MajorType>`; the model returns the
vector itself, `none` modelling a panic.  Both fuels are `bytes.length + 1`:
the loop advances the index by at least one per iteration, and item recursion
depth is bounded by the buffer length, so the fuels are never exhausted. -/
def decode (bytes : List Nat) : Option (List MajorType) :=
  (decodeLoop bytes (bytes.length + 1) (bytes.length + 1) 0).map Prod.fst

/-- Minimal-length big-endian byte encoding helper: `width` bytes of `n`,
most significant first.  (Specification-side definition: the canonical CBOR
encoding that the claims quantify over; the source contains no encoder.) -/
def beBytes : Nat → Nat → List Nat
  | 0, _ => []
  | w + 1, n => beBytes w (n / 256) ++ [n % 256]

/-- Canonical minimal-length CBOR encoding of an unsigned integer argument
with major type 0 (RFC 8949 §4.2.1).  (Specification-side definition.) -/
def encodeU64 (n : Nat) : List Nat :=
  if n < 24 then [n]
  else if n < 256 then [24, n]
  else if n < 65536 then 25 :: beBytes 2 n
  else if n < 4294967296 then 26 :: beBytes 4 n
  else 27 :: beBytes 8 n

/-- Canonical minimal-length CBOR encoding of a negative integer `n` with
`-2^64 ≤ n ≤ -1`: major type 1 with argument `-1 - n`.  (Specification-side
definition.) -/
def encodeNeg (n : Int) : List Nat :=
  match encodeU64 (-1 - n).toNat with
  | [] => []
  | b :: rest => (b + 32) :: rest

/-! ## Helper lemmas -/

theorem u64FromBe_replicate_zero (k : Nat) (l : List Nat) :
    u64FromBe (List.replicate k 0 ++ l) = u64FromBe l := by
  induction k with
  | zero => rfl
  | succ k ih =>
    simp only [List.replicate_succ, List.cons_append, u64FromBe, List.foldl_cons,
      Nat.mul_zero, Nat.zero_mul, Nat.add_zero] at *
    exact ih

theorem u64FromBe_to_b8 (l : List Nat) : u64FromBe (to_b8 l) = u64FromBe l :=
  u64FromBe_replicate_zero _ _

theorem u64FromBe_to_b4 (l : List Nat) : u64FromBe (to_b4 l) = u64FromBe l :=
  u64FromBe_replicate_zero _ _

theorem beBytes_length : ∀ (w n : Nat), (beBytes w n).length = w := by
  intro w
  induction w with
  | zero => intro n; rfl
  | succ w ih => intro n; simp [beBytes, ih]

theorem u64FromBe_append_one (l : List Nat) (b : Nat) :
    u64FromBe (l ++ [b]) = u64FromBe l * 256 + b := by
  simp [u64FromBe, List.foldl_append]

theorem u64FromBe_beBytes : ∀ (w n : Nat), n < 256 ^ w → u64FromBe (beBytes w n) = n := by
  intro w
  induction w with
  | zero =>
    intro n h
    simp only [pow_zero, Nat.lt_one_iff] at h
    simp [beBytes, u64FromBe, h]
  | succ w ih =>
    intro n h
    have hdiv : n / 256 < 256 ^ w := by
      apply Nat.div_lt_of_lt_mul
      calc n < 256 ^ (w + 1) := h
        _ = 256 * 256 ^ w := by ring
    rw [beBytes, u64FromBe_append_one, ih _ hdiv]
    omega

theorem header_small : ∀ b : Nat, b < 32 → (b &&& 224) >>> 5 = 0 ∧ b &&& 31 = b := by decide

theorem header_neg : ∀ b : Nat, b < 32 → ((b + 32) &&& 224) >>> 5 = 1 ∧ (b + 32) &&& 31 = b := by
  decide

theorem decodeLoop_done (bytes : List Nat) (itemFuel loopFuel idx : Nat)
    (h : bytes.length ≤ idx) : decodeLoop bytes itemFuel loopFuel idx = some ([], idx) := by
  cases loopFuel <;> simp [decodeLoop, Nat.not_lt.2 h]

theorem decode_single (bytes : List Nat) (v : MajorType)
    (hv : ∀ fuel, decode_at (fuel + 1) bytes 0 = some (v, bytes.length))
    (h1 : 1 ≤ bytes.length) : decode bytes = some [v] := by
  have h2 : decodeLoop bytes (bytes.length + 1) bytes.length (bytes.length + 1) =
      some ([], bytes.length + 1) := decodeLoop_done _ _ _ _ (by omega)
  simp [decode, decodeLoop, hv bytes.length, h2, Nat.lt_of_lt_of_le Nat.zero_lt_one h1]

theorem decode_at_encodeU64 (fuel n : Nat) (h : n < 2 ^ 64) :
    decode_at (fuel + 1) (encodeU64 n) 0 = some (MajorType.U n, (encodeU64 n).length) := by
  by_cases h24 : n < 24
  · obtain ⟨hmaj, hand⟩ := header_small n (by omega)
    simp [encodeU64, h24, decode_at, get_int, hmaj, hand]
  · by_cases h256 : n < 256
    · have e : encodeU64 n = [24, n] := by simp [encodeU64, h24, h256]
      have hv : u64FromBe (to_b8 [n]) = n := by rw [u64FromBe_to_b8]; simp [u64FromBe]
      rw [e]
      simp [decode_at, get_int, hv,
        show ((24:Nat) &&& 224) >>> 5 = 0 from rfl, show ((24:Nat) &&& 31) = 24 from rfl,
        show (1:Nat) <<< 0 = 1 from rfl]
    · by_cases h65536 : n < 65536
      · have e : encodeU64 n = 25 :: beBytes 2 n := by simp [encodeU64, h24, h256, h65536]
        have ht : (beBytes 2 n).take 2 = beBytes 2 n :=
          List.take_of_length_le (by rw [beBytes_length])
        rw [e]
        simp [decode_at, get_int, beBytes_length, ht, u64FromBe_to_b8,
          u64FromBe_beBytes 2 n (by norm_num; omega),
          show ((25:Nat) &&& 224) >>> 5 = 0 from rfl, show ((25:Nat) &&& 31) = 25 from rfl,
          show (1:Nat) <<< 1 = 2 from rfl]
      · by_cases h4 : n < 4294967296
        · have e : encodeU64 n = 26 :: beBytes 4 n := by
            simp [encodeU64, h24, h256, h65536, h4]
          have ht : (beBytes 4 n).take 4 = beBytes 4 n :=
            List.take_of_length_le (by rw [beBytes_length])
          rw [e]
          simp [decode_at, get_int, beBytes_length, ht, u64FromBe_to_b8,
            u64FromBe_beBytes 4 n (by norm_num; omega),
            show ((26:Nat) &&& 224) >>> 5 = 0 from rfl, show ((26:Nat) &&& 31) = 26 from rfl,
            show (1:Nat) <<< 2 = 4 from rfl]
        · have e : encodeU64 n = 27 :: beBytes 8 n := by
            simp [encodeU64, h24, h256, h65536, h4]
          have ht : (beBytes 8 n).take 8 = beBytes 8 n :=
            List.take_of_length_le (by rw [beBytes_length])
          rw [e]
          simp [decode_at, get_int, beBytes_length, ht, u64FromBe_to_b8,
            u64FromBe_beBytes 8 n (by norm_num; omega),
            show ((27:Nat) &&& 224) >>> 5 = 0 from rfl, show ((27:Nat) &&& 31) = 27 from rfl,
            show (1:Nat) <<< 3 = 8 from rfl]

theorem decode_at_encodeNeg (fuel : Nat) (n : Int) (h1 : -(2 ^ 64) ≤ n) (h2 : n ≤ -1) :
    decode_at (fuel + 1) (encodeNeg n) 0 = some (MajorType.N n, (encodeNeg n).length) := by
  have hp : ((2 : Int) ^ 64) = 18446744073709551616 := by norm_num
  rw [hp] at h1
  set v : Nat := (-1 - n).toNat with hv
  have hvn : ((v : Nat) : Int) = -1 - n := Int.toNat_of_nonneg (by omega)
  have hvlt : v < 18446744073709551616 := by omega
  have hneg : (-1 : Int) - (v : Nat) = n := by omega
  by_cases h24 : v < 24
  · have e0 : encodeU64 v = [v] := by simp [encodeU64, h24]
    have e : encodeNeg n = [v + 32] := by simp only [encodeNeg, ← hv, e0]
    obtain ⟨hmaj, hand⟩ := header_neg v (by omega)
    rw [e]
    simp [decode_at, get_int, hmaj, hand, h24, hneg]
  · by_cases h256 : v < 256
    · have e0 : encodeU64 v = [24, v] := by simp [encodeU64, h24, h256]
      have e : encodeNeg n = [56, v] := by simp only [encodeNeg, ← hv, e0]
      have hval : u64FromBe (to_b8 [v]) = v := by rw [u64FromBe_to_b8]; simp [u64FromBe]
      rw [e]
      simp [decode_at, get_int, hval, hneg,
        show ((56:Nat) &&& 224) >>> 5 = 1 from rfl, show ((56:Nat) &&& 31) = 24 from rfl,
        show (1:Nat) <<< 0 = 1 from rfl]
    · by_cases h65536 : v < 65536
      · have e0 : encodeU64 v = 25 :: beBytes 2 v := by simp [encodeU64, h24, h256, h65536]
        have e : encodeNeg n = 57 :: beBytes 2 v := by simp only [encodeNeg, ← hv, e0]
        have ht : (beBytes 2 v).take 2 = beBytes 2 v :=
          List.take_of_length_le (by rw [beBytes_length])
        rw [e]
        simp [decode_at, get_int, beBytes_length, ht, u64FromBe_to_b8, hneg,
          u64FromBe_beBytes 2 v (by norm_num; omega),
          show ((57:Nat) &&& 224) >>> 5 = 1 from rfl, show ((57:Nat) &&& 31) = 25 from rfl,
          show (1:Nat) <<< 1 = 2 from rfl]
      · by_cases h4 : v < 4294967296
        · have e0 : encodeU64 v = 26 :: beBytes 4 v := by
            simp [encodeU64, h24, h256, h65536, h4]
          have e : encodeNeg n = 58 :: beBytes 4 v := by simp only [encodeNeg, ← hv, e0]
          have ht : (beBytes 4 v).take 4 = beBytes 4 v :=
            List.take_of_length_le (by rw [beBytes_length])
          rw [e]
          simp [decode_at, get_int, beBytes_length, ht, u64FromBe_to_b8, hneg,
            u64FromBe_beBytes 4 v (by norm_num; omega),
            show ((58:Nat) &&& 224) >>> 5 = 1 from rfl, show ((58:Nat) &&& 31) = 26 from rfl,
            show (1:Nat) <<< 2 = 4 from rfl]
        · have e0 : encodeU64 v = 27 :: beBytes 8 v := by
            simp [encodeU64, h24, h256, h65536, h4]
          have e : encodeNeg n = 59 :: beBytes 8 v := by simp only [encodeNeg, ← hv, e0]
          have ht : (beBytes 8 v).take 8 = beBytes 8 v :=
            List.take_of_length_le (by rw [beBytes_length])
          rw [e]
          simp [decode_at, get_int, beBytes_length, ht, u64FromBe_to_b8, hneg,
            u64FromBe_beBytes 8 v (by norm_num; omega),
            show ((59:Nat) &&& 224) >>> 5 = 1 from rfl, show ((59:Nat) &&& 31) = 27 from rfl,
            show (1:Nat) <<< 3 = 8 from rfl]

theorem encodeU64_length_pos (n : Nat) : 1 ≤ (encodeU64 n).length := by
  unfold encodeU64
  split_ifs <;> simp [beBytes_length]

theorem encodeNeg_length_pos (n : Int) : 1 ≤ (encodeNeg n).length := by
  unfold encodeNeg
  cases h : encodeU64 (-1 - n).toNat with
  | nil =>
    have := encodeU64_length_pos (-1 - n).toNat
    rw [h] at this
    simp at this
  | cons b rest => simp

theorem getElem?_lt_len {bytes : List Nat} {i b : Nat} (hb : bytes[i]? = some b) :
    i < bytes.length := by
  by_contra hc
  rw [List.getElem?_eq_none (by omega)] at hb
  simp at hb

theorem get_int_le (bytes : List Nat) (i : Nat) (ov : Option Nat) (i' : Nat)
    (h : get_int bytes i = some (ov, i')) : i ≤ i' ∧ i' ≤ bytes.length := by
  unfold get_int at h
  split at h
  · simp at h
  · rename_i b hb
    have hlen : i < bytes.length := getElem?_lt_len hb
    simp only at h
    split_ifs at h with c1 c2 c3
    · obtain ⟨-, h2⟩ : some (b &&& 31) = ov ∧ i + 1 = i' := by
        simpa using h
      omega
    · obtain ⟨-, h2⟩ :
          some (u64FromBe (to_b8 (List.take (1 <<< ((b &&& 31) - 24)) (List.drop (i + 1) bytes))))
            = ov ∧ i + 1 <<< ((b &&& 31) - 24) + 1 = i' := by
        simpa using h
      generalize 1 <<< ((b &&& 31) - 24) = nb at c3 h2
      omega
    · obtain ⟨-, h2⟩ : none = ov ∧ i = i' := by simpa using h
      omega

theorem get_f16_le (bytes : List Nat) (idx : Nat) (q : ℚ) (i : Nat)
    (h : get_f16 bytes idx = some (q, i)) : i = idx + 2 ∧ idx + 2 < bytes.length := by
  unfold get_f16 at h
  split at h
  · rename_i b1 b2 h1 h2
    have hlen : idx + 2 < bytes.length := getElem?_lt_len h2
    obtain ⟨-, h4⟩ : _ ∧ idx + 2 = i := by simpa using h
    omega
  · simp at h

theorem get_f32_le (bytes : List Nat) (idx : Nat) (x : Nat) (i : Nat)
    (h : get_f32 bytes idx = some (x, i)) : i = idx + 4 ∧ idx + 4 < bytes.length := by
  unfold get_f32 at h
  split_ifs at h with c
  obtain ⟨-, h2⟩ : _ ∧ idx + 4 = i := by simpa using h
  omega

theorem get_f64_le (bytes : List Nat) (idx : Nat) (x : Nat) (i : Nat)
    (h : get_f64 bytes idx = some (x, i)) : i = idx + 8 ∧ idx + 8 < bytes.length := by
  unfold get_f64 at h
  split_ifs at h with c
  obtain ⟨-, h2⟩ : _ ∧ idx + 8 = i := by simpa using h
  omega

theorem decodeSeq_le (f : Nat → Option (MajorType × Nat)) (L : Nat)
    (hf : ∀ idx v i', f idx = some (v, i') → idx ≤ i' ∧ i' ≤ L) :
    ∀ (n idx : Nat) (vs : List MajorType) (i' : Nat), idx ≤ L →
      decodeSeq f n idx = some (vs, i') → idx ≤ i' ∧ i' ≤ L := by
  intro n
  induction n with
  | zero =>
    intro idx vs i' hle h
    simp only [decodeSeq, Option.some.injEq, Prod.mk.injEq] at h
    omega
  | succ n ih =>
    intro idx vs i' hle h
    rw [decodeSeq] at h
    split at h
    · simp at h
    · rename_i v i hfx
      obtain ⟨hf1, hf2⟩ := hf idx v i hfx
      split at h
      · simp at h
      · rename_i vs2 i2 hs
        obtain ⟨-, h2⟩ : v :: vs2 = vs ∧ i2 = i' := by simpa using h
        have := ih i vs2 i2 hf2 hs
        omega

theorem decode_at_le : ∀ (fuel : Nat) (bytes : List Nat) (idx : Nat) (v : MajorType) (i' : Nat),
    decode_at fuel bytes idx = some (v, i') → idx ≤ i' ∧ i' ≤ bytes.length := by
  intro fuel
  induction fuel with
  | zero =>
    intro bytes idx v i' h
    simp [decode_at] at h
  | succ fuel ih =>
    intro bytes idx v i' h
    rw [decode_at] at h
    split at h
    · simp at h
    · rename_i b hb
      have hlen : idx < bytes.length := getElem?_lt_len hb
      have hm7 : (b &&& 224) >>> 5 ≤ 7 := by
        rw [Nat.shiftRight_eq_div_pow]
        have h1 : b &&& 224 ≤ 224 := Nat.and_le_right
        omega
      generalize hg : (b &&& 224) >>> 5 = m at h hm7
      interval_cases m
      · rw [if_pos (by decide : (0 : Nat) = 0)] at h
        split at h
        · simp at h
        · rename_i vv i hg
          obtain ⟨-, h2⟩ : MajorType.U vv = v ∧ i = i' := by simpa using h
          have := get_int_le bytes idx (some vv) i hg
          omega
        · rename_i i hg
          obtain ⟨-, h2⟩ : MajorType.Invalid = v ∧ i = i' := by simpa using h
          have := get_int_le bytes idx none i hg
          omega
      · rw [if_neg (by decide : ¬(1 : Nat) = 0), if_pos (by decide : (1 : Nat) = 1)] at h
        split at h
        · simp at h
        · rename_i vv i hg
          obtain ⟨-, h2⟩ : MajorType.N (-1 - (vv : Int)) = v ∧ i = i' := by simpa using h
          have := get_int_le bytes idx (some vv) i hg
          omega
        · rename_i i hg
          obtain ⟨-, h2⟩ : MajorType.Invalid = v ∧ i = i' := by simpa using h
          have := get_int_le bytes idx none i hg
          omega
      · rw [if_neg (by decide : ¬(2 : Nat) = 0), if_neg (by decide : ¬(2 : Nat) = 1), if_pos (by decide : (2 : Nat) = 2)] at h
        split at h
        · simp at h
        · simp at h
        · rename_i len i hg
          have hgle := get_int_le bytes idx (some len) i hg
          split_ifs at h with hbound
          obtain ⟨-, h2⟩ : _ ∧ i + len = i' := by simpa using h
          omega
      · rw [if_neg (by decide : ¬(3 : Nat) = 0), if_neg (by decide : ¬(3 : Nat) = 1), if_neg (by decide : ¬(3 : Nat) = 2), if_pos (by decide : (3 : Nat) = 3)] at h
        split at h
        · simp at h
        · simp at h
        · rename_i len i hg
          have hgle := get_int_le bytes idx (some len) i hg
          split_ifs at h with hbound hutf
          obtain ⟨-, h2⟩ : _ ∧ i + len = i' := by simpa using h
          omega
      · rw [if_neg (by decide : ¬(4 : Nat) = 0), if_neg (by decide : ¬(4 : Nat) = 1), if_neg (by decide : ¬(4 : Nat) = 2), if_neg (by decide : ¬(4 : Nat) = 3), if_pos (by decide : (4 : Nat) = 4)] at h
        split at h
        · simp at h
        · simp at h
        · rename_i len i hg
          have hgle := get_int_le bytes idx (some len) i hg
          split at h
          · simp at h
          · rename_i vs i2 hs
            obtain ⟨-, h2⟩ : MajorType.Arr vs = v ∧ i2 = i' := by simpa using h
            have := decodeSeq_le (fun j => decode_at fuel bytes j) bytes.length
              (fun jdx jv ji hj => ih bytes jdx jv ji hj) len i vs i2 hgle.2 hs
            omega
      · rw [if_neg (by decide : ¬(5 : Nat) = 0), if_neg (by decide : ¬(5 : Nat) = 1), if_neg (by decide : ¬(5 : Nat) = 2), if_neg (by decide : ¬(5 : Nat) = 3), if_neg (by decide : ¬(5 : Nat) = 4), if_pos (by decide : (5 : Nat) = 5)] at h
        obtain ⟨-, h2⟩ : MajorType.Map [] = v ∧ idx = i' := by simpa using h
        omega
      · rw [if_neg (by decide : ¬(6 : Nat) = 0), if_neg (by decide : ¬(6 : Nat) = 1), if_neg (by decide : ¬(6 : Nat) = 2), if_neg (by decide : ¬(6 : Nat) = 3), if_neg (by decide : ¬(6 : Nat) = 4), if_neg (by decide : ¬(6 : Nat) = 5), if_pos (by decide : (6 : Nat) = 6)] at h
        obtain ⟨-, h2⟩ : MajorType.Tag = v ∧ idx = i' := by simpa using h
        omega
      · rw [if_neg (by decide : ¬(7 : Nat) = 0), if_neg (by decide : ¬(7 : Nat) = 1), if_neg (by decide : ¬(7 : Nat) = 2), if_neg (by decide : ¬(7 : Nat) = 3), if_neg (by decide : ¬(7 : Nat) = 4), if_neg (by decide : ¬(7 : Nat) = 5), if_neg (by decide : ¬(7 : Nat) = 6), if_pos (by decide : (7 : Nat) = 7)] at h
        split at h
        · obtain ⟨-, h2⟩ : MajorType.False = v ∧ idx + 1 = i' := by simpa using h
          omega
        · split at h
          · obtain ⟨-, h2⟩ : MajorType.True = v ∧ idx + 1 = i' := by simpa using h
            omega
          · split at h
            · obtain ⟨-, h2⟩ : MajorType.Null = v ∧ idx + 1 = i' := by simpa using h
              omega
            · split at h
              · obtain ⟨-, h2⟩ : MajorType.Undefined = v ∧ idx + 1 = i' := by simpa using h
                omega
              · split at h
                · split at h
                  · simp at h
                  · rename_i q i hf
                    obtain ⟨-, h2⟩ : MajorType.F16 q = v ∧ i + 1 = i' := by simpa using h
                    have := get_f16_le bytes idx q i hf
                    omega
                · split at h
                  · split at h
                    · simp at h
                    · rename_i q i hf
                      obtain ⟨-, h2⟩ : MajorType.F32 q = v ∧ i + 1 = i' := by simpa using h
                      have := get_f32_le bytes idx q i hf
                      omega
                  · split at h
                    · split at h
                      · simp at h
                      · rename_i q i hf
                        obtain ⟨-, h2⟩ : MajorType.F64 q = v ∧ i + 1 = i' := by simpa using h
                        have := get_f64_le bytes idx q i hf
                        omega
                    · obtain ⟨-, h2⟩ : MajorType.Invalid = v ∧ idx + 1 = i' := by simpa using h
                      omega

theorem decodeLoop_le : ∀ (bytes : List Nat) (itemFuel loopFuel idx : Nat)
    (vs : List MajorType) (fi : Nat),
    decodeLoop bytes itemFuel loopFuel idx = some (vs, fi) →
    idx ≤ fi ∧ (idx ≤ bytes.length + 1 → fi ≤ bytes.length + 1) := by
  intro bytes itemFuel loopFuel
  induction loopFuel with
  | zero =>
    intro idx vs fi h
    rw [decodeLoop] at h
    split_ifs at h
    obtain ⟨-, h2⟩ : ([] : List MajorType) = vs ∧ idx = fi := by simpa using h
    omega
  | succ loopFuel ih =>
    intro idx vs fi h
    rw [decodeLoop] at h
    split_ifs at h with hidx
    · split at h
      · simp at h
      · rename_i v i hat
        have h1 := decode_at_le _ _ _ _ _ hat
        split at h
        · simp at h
        · rename_i vs2 fi2 hloop
          obtain ⟨-, h2⟩ : v :: vs2 = vs ∧ fi2 = fi := by simpa using h
          have := ih (i + 1) vs2 fi2 hloop
          omega
    · obtain ⟨-, h2⟩ : ([] : List MajorType) = vs ∧ idx = fi := by simpa using h
      omega

/-! ## Claim theorems -/

/-- Claim C1.  The claim states that every decoding operation returns a
fallible result on malformed input and that a declared byte-string or
text-string length exceeding the remaining bytes fails with `OutOfBounds`
rather than a panic.  The code violates this: the source slices
`bytes[*idx..*idx + len]` without any bound check, so a truncated input makes
the process panic (modelled as `none`); the source has no error type and no
`OutOfBounds` value at all.  `[0x45]` declares a 5-byte byte string with no
payload; `[0x5A, 0xFF, 0xFF, 0xFF, 0xFF]` declares a 4294967295-byte byte
string; `[0x64, 0x61, 0x62]` declares a 4-byte text string with 2 payload
bytes.  All three panic. -/
theorem spec_c1_truncated_input_panics :
    decode [0x45] = none ∧
    decode [0x5A, 0xFF, 0xFF, 0xFF, 0xFF] = none ∧
    decode [0x64, 0x61, 0x62] = none :=
  ⟨rfl, rfl, rfl⟩

/-- Claim C2.  For every unsigned 64-bit integer `n`, decoding the canonical
minimal-length CBOR encoding of `n` yields `UnsignedInt n` (`MajorType.U n`):
the item decoder consumes exactly the whole encoding (the header byte alone
for AI 0–23, and 1/2/4/8 extra big-endian bytes for AI 24/25/26/27), and the
top-level `decode` returns exactly `[U n]`. -/
theorem spec_c2_canonical_unsigned_roundtrip (n : Nat) (h : n < 2 ^ 64) :
    (∀ fuel, decode_at (fuel + 1) (encodeU64 n) 0 =
      some (MajorType.U n, (encodeU64 n).length)) ∧
    decode (encodeU64 n) = some [MajorType.U n] :=
  ⟨fun fuel => decode_at_encodeU64 fuel n h,
   decode_single _ _ (fun fuel => decode_at_encodeU64 fuel n h) (encodeU64_length_pos n)⟩

/-- Witness for C2 at the concrete input `n = 76543` (a 4-byte argument). -/
theorem spec_c2_witness : decode (encodeU64 76543) = some [MajorType.U 76543] :=
  (spec_c2_canonical_unsigned_roundtrip 76543 (by norm_num)).2

/-- Claim C3.  The claim states that a buffer of `k` concatenated well-formed
items decodes to exactly `k` values.  The code violates this for `k ≥ 2`: the
top-level loop does `idx += 1` after every `decode_at` call even though
`decode_at` already leaves the index one past the item, so the first byte of
every following item is skipped.  `[0x00]` (one item) correctly gives one
value, but `[0x00, 0x00]` (two well-formed items) gives only `[U 0]` — the
second item is silently dropped. -/
theorem spec_c3_second_item_dropped :
    decode [0x00] = some [MajorType.U 0] ∧
    decode [0x00, 0x00] = some [MajorType.U 0] :=
  ⟨rfl, rfl⟩

/-- Claim C4.  For every major-type-1 item whose decoded argument is `v`, the
result is `NegativeInt (-1 - v)` with the arithmetic done after widening `v`
to a signed 128-bit integer (the model uses `Int`, which the `i128` arithmetic
of the source agrees with on this range), and for every negative `n` with
`-2^64 ≤ n ≤ -1`, decoding the canonical encoding of `n` yields
`NegativeInt n` (`MajorType.N n`). -/
theorem spec_c4_negative_roundtrip (n : Int) (h1 : -(2 ^ 64) ≤ n) (h2 : n ≤ -1) :
    (∀ (bytes : List Nat) (idx fuel b vv i : Nat), bytes[idx]? = some b →
      (b &&& 224) >>> 5 = 1 → get_int bytes idx = some (some vv, i) →
      decode_at (fuel + 1) bytes idx = some (MajorType.N (-1 - (vv : Int)), i)) ∧
    decode (encodeNeg n) = some [MajorType.N n] := by
  constructor
  · intro bytes idx fuel b vv i hb hm hg
    simp [decode_at, hb, hm, hg]
  · exact decode_single _ _ (fun fuel => decode_at_encodeNeg fuel n h1 h2)
      (encodeNeg_length_pos n)

/-- Witness for C4 at the concrete input `n = -1000`. -/
theorem spec_c4_witness : decode (encodeNeg (-1000)) = some [MajorType.N (-1000)] :=
  (spec_c4_negative_roundtrip (-1000) (by norm_num) (by norm_num)).2

/-- Claim C6.  The claim states that a major-type-5 item with pair-count `n`
decodes `n` key/value pairs into a Map with last-write-wins semantics.  The
code violates this: the map branch of the source is a stub returning an empty
`HashMap` without consuming the argument or any entry bytes (and its key type
is `String`, not the full value type).  On `[0xA1, 0x01, 0x02]` (the map
`{1: 2}`) the source returns the empty map and then, after the loop's `idx +=
1`, re-reads the key byte as a separate top-level item, yielding
`[Map {}, U 1]` instead of `[Map {1: 2}]`. -/
theorem spec_c6_map_decoding_is_stub :
    decode [0xA1, 0x01, 0x02] = some [MajorType.Map [], MajorType.U 1] :=
  rfl

/-- Claim C7.  The claim states that a major-type-6 item decodes to a Tag
value capturing the tag number and the wrapped item.  The code violates this:
the tag branch returns the bare `Tag` marker without reading the argument or
the wrapped item.  On `[0xC1, 0x00]` (tag 1 wrapping `U 0`) the source
returns `[Tag, U 0]` — the tag number is lost and the wrapped value leaks out
as a separate top-level item. -/
theorem spec_c7_tag_number_and_value_discarded :
    decode [0xC1, 0x00] = some [MajorType.Tag, MajorType.U 0] :=
  rfl

/-- Claim C8.  The claim states that a text string whose payload is not valid
UTF-8 fails with `InvalidUtf8` and never panics.  The code violates this:
it calls `String::from_utf8(utf).unwrap()`, so invalid UTF-8 panics (modelled
as `none`); there is no `InvalidUtf8` error value in the source.  `[0x61,
0xFF]` is a 1-byte text string with the invalid byte `0xFF`; a valid payload
(`[0x61, 0x41]`, the string `A`) decodes normally. -/
theorem spec_c8_invalid_utf8_panics :
    validUtf8 [0xFF] = Bool.false ∧
    decode [0x61, 0xFF] = none ∧
    decode [0x61, 0x41] = some [MajorType.Str [0x41]] :=
  ⟨rfl, rfl, rfl⟩

/-- Claim C9.  The claim states that additional information 28–31 (and any
major-type-7 AI outside 20–23/25–27) fails with `UnsupportedAdditionalInfo`
rather than returning any Value.  The code violates this: there is no error
type; for major types 0, 1 and 7 it returns the `Invalid` **value**, and for
major types 2–4 it panics on `get_int(..).unwrap()`.  `[0x1C]` is major 0
with AI 28 (→ value `Invalid`), `[0x3F]` is major 1 with AI 31 (→ value
`Invalid`), `[0xF8]` is major 7 with AI 24 (→ value `Invalid`), and `[0x5C]`
is major 2 with AI 28 (→ panic, modelled as `none`). -/
theorem spec_c9_unsupported_ai_gives_invalid_value_or_panic :
    decode [0x1C] = some [MajorType.Invalid] ∧
    decode [0x3F] = some [MajorType.Invalid] ∧
    decode [0xF8] = some [MajorType.Invalid] ∧
    decode [0x5C] = none :=
  ⟨rfl, rfl, rfl, rfl⟩

/-- Claim C10, counterexample.  The claim states the cursor position never
exceeds the buffer length throughout a call to `decode`.  This is false even
on the well-formed input `[0x00]`: `decode` runs
`decodeLoop [0x00] 2 2 0` (both fuels are `length + 1 = 2`), and the loop's
`idx += 1` after the item leaves the final position at 2, strictly greater
than the buffer length 1. -/
theorem spec_c10_counterexample :
    decodeLoop [0x00] 2 2 0 = some ([MajorType.U 0], 2) ∧
    ([0x00] : List Nat).length < 2 :=
  ⟨rfl, by norm_num⟩

/-- Claim C10, amended.  The cursor position is monotonically non-decreasing
across every read and advance, and within a single item decode (`decode_at`,
including `get_int` and the float readers) a successful return never leaves
the position beyond the buffer length; the top-level loop's unconditional
`idx += 1` after each item can additionally leave the position at most one
past the buffer length. -/
theorem spec_c10_cursor_monotone_and_bounded :
    (∀ (fuel : Nat) (bytes : List Nat) (idx : Nat) (v : MajorType) (i' : Nat),
      decode_at fuel bytes idx = some (v, i') → idx ≤ i' ∧ i' ≤ bytes.length) ∧
    (∀ (bytes : List Nat) (itemFuel loopFuel idx : Nat) (vs : List MajorType) (fi : Nat),
      decodeLoop bytes itemFuel loopFuel idx = some (vs, fi) →
      idx ≤ fi ∧ (idx ≤ bytes.length + 1 → fi ≤ bytes.length + 1)) :=
  ⟨decode_at_le, decodeLoop_le⟩

/-- Witness for the amended C10, applying it at the concrete decode of
`[0x00]`: the item decode moves the position from 0 to 1 ≤ 1, and the
top-level loop ends at 2 ≤ 1 + 1. -/
theorem spec_c10_witness :
    ((0 : Nat) ≤ 1 ∧ 1 ≤ ([0x00] : List Nat).length) ∧
    ((0 : Nat) ≤ 2 ∧ ((0 : Nat) ≤ ([0x00] : List Nat).length + 1 →
      2 ≤ ([0x00] : List Nat).length + 1)) :=
  ⟨spec_c10_cursor_monotone_and_bounded.1 1 [0x00] 0 (MajorType.U 0) 1 rfl,
   spec_c10_cursor_monotone_and_bounded.2 [0x00] 2 2 0 [MajorType.U 0] 2 rfl⟩

theorem f16_val_3C01 :
    (2 : ℚ) ^ ((((60 &&& 124) >>> 2 : Nat) : ℤ) - 15) *
      (1 + ((((60 &&& 3) <<< 8) + 1 : Nat) : ℚ) / 1024) * 1 = 1025 / 1024 := by
  norm_num [show ((60 : Nat) &&& 124) >>> 2 = 15 from rfl,
    show (((60 : Nat) &&& 3) <<< 8) + 1 = 1 from rfl]

theorem f16_val_0001 :
    (2 : ℚ) ^ ((((0 &&& 124) >>> 2 : Nat) : ℤ) - 15) *
      (1 + ((((0 &&& 3) <<< 8) + 1 : Nat) : ℚ) / 1024) * 1 = 1025 / 33554432 := by
  norm_num [show ((0 : Nat) &&& 124) >>> 2 = 0 from rfl,
    show (((0 : Nat) &&& 3) <<< 8) + 1 = 1 from rfl]

theorem f16_val_7C00 :
    (2 : ℚ) ^ ((((124 &&& 124) >>> 2 : Nat) : ℤ) - 15) *
      (1 + ((((124 &&& 3) <<< 8) + 0 : Nat) : ℚ) / 1024) * 1 = 65536 := by
  norm_num [show ((124 : Nat) &&& 124) >>> 2 = 31 from rfl,
    show (124 : Nat) >>> 2 = 31 from rfl,
    show (((124 : Nat) &&& 3) <<< 8) + 0 = 0 from rfl]

theorem decode_F9_3C_01 :
    decode [0xF9, 0x3C, 0x01] = some [MajorType.F16 (1025 / 1024)] := by
  calc decode [0xF9, 0x3C, 0x01]
      = some [MajorType.F16 ((2 : ℚ) ^ ((((60 &&& 124) >>> 2 : Nat) : ℤ) - 15) *
          (1 + ((((60 &&& 3) <<< 8) + 1 : Nat) : ℚ) / 1024) * 1)] := rfl
    _ = some [MajorType.F16 (1025 / 1024)] := by rw [f16_val_3C01]

theorem decode_F9_00_01 :
    decode [0xF9, 0x00, 0x01] = some [MajorType.F16 (1025 / 33554432)] := by
  calc decode [0xF9, 0x00, 0x01]
      = some [MajorType.F16 ((2 : ℚ) ^ ((((0 &&& 124) >>> 2 : Nat) : ℤ) - 15) *
          (1 + ((((0 &&& 3) <<< 8) + 1 : Nat) : ℚ) / 1024) * 1)] := rfl
    _ = some [MajorType.F16 (1025 / 33554432)] := by rw [f16_val_0001]

theorem decode_F9_7C_00 :
    decode [0xF9, 0x7C, 0x00] = some [MajorType.F16 65536] := by
  calc decode [0xF9, 0x7C, 0x00]
      = some [MajorType.F16 ((2 : ℚ) ^ ((((124 &&& 124) >>> 2 : Nat) : ℤ) - 15) *
          (1 + ((((124 &&& 3) <<< 8) + 0 : Nat) : ℚ) / 1024) * 1)] := rfl
    _ = some [MajorType.F16 65536] := by rw [f16_val_7C00]

/-- Claim C5.  The claim states that the half-precision decoder special-cases
biased exponent 0 (subnormals) and 31 (infinities / NaN), using the normal
formula only for exponents 1–30, and that `[0xF9, 0x3C, 0x01]` decodes to
1.0009765625.  The concrete example holds (1.0009765625 = 1025/1024, a normal
number), but the code has no special cases: it applies the normal formula
`2^(e-15) * (1 + m/1024) * sign` for every exponent.  On the subnormal input
`[0xF9, 0x00, 0x01]` (biased exponent 0, mantissa 1) it returns
`2^-15 * (1 + 1/1024) = 1025/33554432` where the claim requires
`2^-14 * (1/1024) = 2^-24`, and on `[0xF9, 0x7C, 0x00]` (biased exponent 31,
mantissa 0) it returns the finite number `2^16 = 65536` where the claim
requires +Infinity.  (The `f32` arithmetic of the source is exact on all
these values, so the `ℚ` model computes the identical numbers.) -/
theorem spec_c5_half_float_no_special_cases :
    decode [0xF9, 0x3C, 0x01] = some [MajorType.F16 (1025 / 1024)] ∧
    decode [0xF9, 0x00, 0x01] = some [MajorType.F16 (1025 / 33554432)] ∧
    (1025 / 33554432 : ℚ) ≠ (2 : ℚ) ^ ((-14) : ℤ) * (1 / 1024) ∧
    decode [0xF9, 0x7C, 0x00] = some [MajorType.F16 65536] :=
  ⟨decode_F9_3C_01, decode_F9_00_01, by norm_num, decode_F9_7C_00⟩
